import Mathlib

set_option autoImplicit false

/-!
A shallow embedding of the pigaios CLang exporter
(src/exporters/clang_exporter.py) together with proofs about it.

Modelling conventions:
* Python strings are Lean `String`s; `s.strip(c)` is `pyStrip`,
  `needle in hay` / `hay.find(needle) > -1` is `strContains`.
* Python sets are insertion-ordered duplicate-free lists (`insertDedup` is
  `set.add`); only membership, cardinality and element counts are consumed
  by the properties proved here.
* Python exceptions are modelled with `Except`.
* External collaborators (`simple_eval` from SimpleEval, `get_printable_value`
  from base_support, the macro extractor, the clang front-end itself) enter
  the model as parameters or as data carried by the input, so every theorem
  holds for every implementation of them.
-/

/-- Python's `s.strip(c)` for a single strip character: removes every leading
and trailing occurrence of the character `c`. -/
def pyStrip (s : String) (c : Char) : String :=
  String.mk (((s.toList.dropWhile (fun x => x == c)).reverse.dropWhile
    (fun x => x == c)).reverse)

/-- Python's `needle in hay` (equivalently `hay.find(needle) > -1`):
`needle` occurs contiguously inside `hay`. -/
def strContains (hay needle : String) : Bool :=
  decide (needle.toList <:+: hay.toList)

/-- Python's `hay.startswith(pre)`. -/
def strStartsWith (hay pre : String) : Bool :=
  decide (pre.toList <+: hay.toList)

/-- Python's `hay.endswith(suf)`. -/
def strEndsWith (hay suf : String) : Bool :=
  decide (suf.toList <:+ hay.toList)

/-- Python `set.add` on the insertion-ordered duplicate-free list model. -/
def insertDedup (s : List String) (x : String) : List String :=
  if x ∈ s then s else s ++ [x]

/-- The clang cursor kinds the exporter dispatches on. -/
inductive CKind where
  | STRUCT_DECL
  | UNION_DECL
  | ENUM_DECL
  | TYPEDEF_DECL
  | VAR_DECL
  | FUNCTION_DECL
  | FUNCTION_TEMPLATE
  | CXX_METHOD
  | CONSTRUCTOR
  | DESTRUCTOR
  | OBJC_INSTANCE_METHOD_DECL
  | INTEGER_LITERAL
  | FLOATING_LITERAL
  | STRING_LITERAL
  | CHARACTER_LITERAL
  | OTHER
deriving DecidableEq

/-- The clang token kinds the visitor dispatches on. -/
inductive TokKind where
  | KEYWORD
  | LITERAL
  | PUNCTUATION
  | IDENTIFIER
  | COMMENT
deriving DecidableEq

/-- One lexed token: its clang token kind and its spelling. -/
structure Tok where
  kind : TokKind
  spelling : String
deriving DecidableEq

def kw (s : String) : Tok := ⟨TokKind.KEYWORD, s⟩

def lit (s : String) : Tok := ⟨TokKind.LITERAL, s⟩

def punct (s : String) : Tok := ⟨TokKind.PUNCTUATION, s⟩

def ident (s : String) : Tok := ⟨TokKind.IDENTIFIER, s⟩

example : pyStrip "  ab  " ' ' = "ab" := by decide

example : strContains "abc def" "c d" = true := by decide

example : strContains "abc" "cb" = false := by decide

example : strStartsWith "#include x" "#include" = true := by decide

example : strEndsWith "1.5f" "f" = true := by decide

/-- The token loop of `CCLangVisitor.visit_IF_STMT` (clang_exporter.py
lines 194-216): `par` is `par_level`, `conds` is `tmp_conds`, `flag` is
`at_least_one_parenthesis`; the function returns the contribution the rule
adds to `self.conditions`. -/
def visitIfGo : List String → Int → Nat → Bool → Nat
  | [], _, conds, _ => conds
  | t :: ts, par, conds, flag =>
    if t = "(" then
      visitIfGo ts (par + 1) (if flag then conds else conds + 1) true
    else if t = ")" then
      if par - 1 = 0 ∧ flag = true then conds
      else visitIfGo ts (par - 1) conds flag
    else if t = "||" ∨ t = "&&" then
      visitIfGo ts par (conds + 1) flag
    else
      visitIfGo ts par conds flag

/-- The condition-count contribution of one if-statement's token stream. -/
def visit_IF_STMT (tokens : List String) : Nat := visitIfGo tokens 0 0 false

/-- Claim-side: the tokens scanned after the first opening parenthesis, up to
(excluding) the closing token at which parenthesis depth first returns to
zero; `d` is the current depth (at least 1). -/
def closeSpan : List String → Nat → List String
  | [], _ => []
  | t :: ts, d =>
    if t = "(" then t :: closeSpan ts (d + 1)
    else if t = ")" then (if d = 1 then [] else t :: closeSpan ts (d - 1))
    else t :: closeSpan ts d

/-- Claim-side: the token span scanned by the conditional-statement rule:
everything before the point at which parenthesis depth first returns to zero
after the first opening parenthesis (the whole stream when there is no such
point). -/
def condSpan : List String → List String
  | [] => []
  | t :: ts => if t = "(" then t :: closeSpan ts 1 else t :: condSpan ts

def isAndOr (t : String) : Bool := t == "&&" || t == "||"

/-- The condition count the claim describes: one for the first opening
parenthesis (when there is one) plus one per `&&`/`||` token in the scanned
span. -/
def specIfConds (tokens : List String) : Nat :=
  (if "(" ∈ tokens then 1 else 0) + (condSpan tokens).countP isAndOr

/-- A token stream with no stray closing parenthesis before the first opening
one (every token stream of an actual if-statement starts with `if (`). -/
def noStrayClose (ts : List String) : Bool :=
  (ts.takeWhile (fun t => t != "(")).all (fun t => t != ")")

theorem visitIfGo_closed (ts : List String) :
    ∀ (d : Nat) (conds : Nat), 1 ≤ d →
      visitIfGo ts (d : Int) conds true = conds + (closeSpan ts d).countP isAndOr := by
  induction ts with
  | nil => intro d conds _; simp [visitIfGo, closeSpan]
  | cons t ts ih =>
    intro d conds hd
    by_cases h1 : t = "("
    · subst h1
      have ih2 : visitIfGo ts ((d : Int) + 1) conds true =
          conds + (closeSpan ts (d + 1)).countP isAndOr := by
        have hcast : ((d : Int) + 1) = ((d + 1 : Nat) : Int) := by push_cast; ring
        rw [hcast]
        exact ih (d + 1) conds (by omega)
      simp [visitIfGo, closeSpan, ih2, isAndOr]
    · by_cases h2 : t = ")"
      · subst h2
        by_cases hd1 : d = 1
        · subst hd1
          simp [visitIfGo, closeSpan]
        · have hne : ¬((d : Int) - 1 = 0 ∧ true = true) := by
            intro h
            omega
          have hcast : ((d : Int) - 1) = ((d - 1 : Nat) : Int) := by
            omega
          have ih2 := ih (d - 1) conds (by omega)
          simp [visitIfGo, closeSpan, hne, hcast, ih2, hd1, isAndOr]
          intro h
          exact absurd h (by omega)
      · by_cases h3 : t = "||" ∨ t = "&&"
        · have hAO : isAndOr t = true := by
            rcases h3 with h | h <;> subst h <;> decide
          have ih2 := ih d (conds + 1) hd
          simp [visitIfGo, closeSpan, h1, h2, h3, ih2, List.countP_cons, hAO]
          omega
        · have h4 : t ≠ "&&" := fun h => h3 (Or.inr h)
          have h5 : t ≠ "||" := fun h => h3 (Or.inl h)
          have ih2 := ih d conds hd
          simp [visitIfGo, closeSpan, h1, h2, h3, ih2, List.countP_cons, isAndOr, h4, h5]

theorem noStrayClose_cons (t : String) (ts : List String) (h : t ≠ "(") :
    noStrayClose (t :: ts) = ((t != ")") && noStrayClose ts) := by
  simp [noStrayClose, List.takeWhile_cons, h]

theorem visitIfGo_open (ts : List String) :
    ∀ conds : Nat, noStrayClose ts = true →
      visitIfGo ts 0 conds false = conds + specIfConds ts := by
  induction ts with
  | nil => intro conds _; simp [visitIfGo, specIfConds, condSpan]
  | cons t ts ih =>
    intro conds hns
    by_cases h1 : t = "("
    · subst h1
      have hc := visitIfGo_closed ts 1 (conds + 1) (le_refl 1)
      norm_num at hc
      simp [visitIfGo, specIfConds, condSpan, isAndOr, hc]
      omega
    · rw [noStrayClose_cons t ts h1] at hns
      obtain ⟨hne, hns2⟩ := Bool.and_eq_true_iff.mp hns
      have h2 : t ≠ ")" := by
        intro h; subst h; simp at hne
      by_cases h3 : t = "||" ∨ t = "&&"
      · have hAO : isAndOr t = true := by
          rcases h3 with h | h <;> subst h <;> decide
        have hmem : ("(" ∈ t :: ts) = ("(" ∈ ts) := by
          simp
          intro h
          exact absurd h.symm h1
        have ih2 := ih (conds + 1) hns2
        simp [visitIfGo, specIfConds, condSpan, h1, h2, h3, ih2, hmem,
          List.countP_cons, hAO]
        omega
      · have h4 : t ≠ "&&" := fun h => h3 (Or.inr h)
        have h5 : t ≠ "||" := fun h => h3 (Or.inl h)
        have hmem : ("(" ∈ t :: ts) = ("(" ∈ ts) := by
          simp
          intro h
          exact absurd h.symm h1
        have ih2 := ih conds hns2
        simp [visitIfGo, specIfConds, condSpan, h1, h2, h3, ih2, hmem,
          List.countP_cons, isAndOr, h4, h5]

/-- A token that is none of `(`, `)`, `&&`, `||`: a single plain boolean
condition is made of such tokens. -/
def plainToken (t : String) : Bool :=
  t != "(" && t != ")" && t != "&&" && t != "||"

theorem plainToken_parts (t : String) (h : plainToken t = true) :
    t ≠ "(" ∧ t ≠ ")" ∧ t ≠ "&&" ∧ t ≠ "||" := by
  simp [plainToken] at h
  exact ⟨h.1.1.1, h.1.1.2, h.1.2, h.2⟩

theorem closeSpan_plain (body : List String) :
    ∀ cond : List String, cond.all plainToken = true →
      closeSpan (cond ++ ")" :: body) 1 = cond := by
  intro cond
  induction cond with
  | nil => intro _; simp [closeSpan]
  | cons t ts ih =>
    intro h
    rw [List.all_cons] at h
    obtain ⟨ht, hts⟩ := Bool.and_eq_true_iff.mp h
    obtain ⟨h1, h2, _, _⟩ := plainToken_parts t ht
    simp [closeSpan, h1, h2, ih hts]

/-- Claim C5: for every if-statement token stream (one with no stray `)`
before the first `(`), the conditional-statement rule contributes one for the
first `(` plus one per `&&`/`||` token scanned before parenthesis depth first
returns to zero (later tokens are not scanned); in particular a single
parenthesised boolean condition with no `&&`/`||` contributes exactly 1. -/
theorem c5_if_condition_count :
    (∀ tokens : List String, noStrayClose tokens = true →
        visit_IF_STMT tokens = specIfConds tokens)
    ∧ (∀ cond body : List String, cond.all plainToken = true →
        visit_IF_STMT ("if" :: "(" :: (cond ++ ")" :: body)) = 1) := by
  constructor
  · intro tokens h
    have := visitIfGo_open tokens 0 h
    simpa [visit_IF_STMT] using this
  · intro cond body h
    have hc := visitIfGo_closed (cond ++ ")" :: body) 1 1 (le_refl 1)
    norm_num at hc
    rw [closeSpan_plain body cond h] at hc
    have hz : cond.countP isAndOr = 0 := by
      apply List.countP_eq_zero.mpr
      intro t ht
      obtain ⟨_, _, h3, h4⟩ := plainToken_parts t (List.all_eq_true.mp h t ht)
      simp [isAndOr, h3, h4]
    simp [visit_IF_STMT, visitIfGo, hc, hz]

/-- Witness for C5: concrete instantiations of both parts. -/
theorem c5_if_condition_count_witness :
    visit_IF_STMT ["if", "(", "a", "<", "b", ")", "return", ";"] =
      specIfConds ["if", "(", "a", "<", "b", ")", "return", ";"]
    ∧ visit_IF_STMT ["if", "(", "ok", ")", "\x7b", "\x7d"] = 1 :=
  ⟨c5_if_condition_count.1 _ (by decide),
   c5_if_condition_count.2 ["ok"] ["\x7b", "\x7d"] (by decide)⟩

/-- The token loop of `CCLangVisitor.visit_SWITCH_STMT` (clang_exporter.py
lines 254-277). Faithful to the source: `clean` (`clean_token`) is only
(re)assigned when the current token is a KEYWORD, so when a LITERAL token is
consumed under `next_case` the value recorded into `cases` is the spelling of
the most recently seen keyword, not the literal itself. -/
def visitSwitchGo : List Tok → List String → Bool → Nat → String → Nat × List String
  | [], cases, _, dflt, _ => (cases.length + dflt, cases)
  | t :: ts, cases, nextCase, dflt, clean =>
    if t.kind ≠ TokKind.KEYWORD ∧ t.kind ≠ TokKind.LITERAL then
      visitSwitchGo ts cases nextCase dflt clean
    else if t.kind = TokKind.KEYWORD then
      let c := t.spelling
      if c = "case" then visitSwitchGo ts cases true dflt c
      else if c = "default" then visitSwitchGo ts cases nextCase 1 c
      else if nextCase then visitSwitchGo ts (insertDedup cases c) false dflt c
      else visitSwitchGo ts cases nextCase dflt c
    else
      if nextCase then visitSwitchGo ts (insertDedup cases clean) false dflt clean
      else visitSwitchGo ts cases nextCase dflt clean

/-- The switch entry `[len(cases) + default, list(cases)]` appended by one
visit of a switch statement. -/
def visit_SWITCH_STMT (tokens : List Tok) : Nat × List String :=
  visitSwitchGo tokens [] false 0 ""

/-- Token stream of `switch (x) { case 1: break; case 2: break;
case 3: break; default: break; }`. -/
def switchExample : List Tok :=
  [kw "switch", punct "(", ident "x", punct ")", punct "\x7b",
   kw "case", lit "1", punct ":", kw "break", punct ";",
   kw "case", lit "2", punct ":", kw "break", punct ";",
   kw "case", lit "3", punct ":", kw "break", punct ";",
   kw "default", punct ":", kw "break", punct ";", punct "\x7d"]

/-- Claim C6 is wrong about the code: on a switch over case labels 1, 2, 3
with a default, the entry recorded is `[2, ["case"]]`, not
`[4, ["1","2","3"]]` — `clean_token` is never assigned the literal case
value, so the stale keyword spelling `case` is collected (once, being a set),
contradicting the comment in the source ("The next token will be the case
value") and the spec. -/
theorem c6_switch_entry_bug : visit_SWITCH_STMT switchExample = (2, ["case"]) := by
  decide

/-- The constant and external-reference sets of one function's accumulator
(`CCLangVisitor.constants` / `CCLangVisitor.externals`). -/
structure VisState where
  constants : List String
  externals : List String
deriving DecidableEq

/-- The token loop of `CCLangVisitor.visit_LITERAL` (clang_exporter.py
lines 141-162). `ev` stands for the external `simple_eval` (its result is
assigned to a dead variable in the source) and `decode` for
`get_printable_value` (defined in base_support.py, outside this scope); both
are parameters, so every theorem holds for every implementation of them.
A non-LITERAL token is skipped; a string-branch token is processed and the
loop continues; any other literal token ends the loop after the discarded
evaluation attempt. -/
def visitLitGo (ev : String → Option Int) (decode : String → String)
    (ckind : CKind) : List Tok → VisState → VisState
  | [], st => st
  | t :: ts, st =>
    if t.kind ≠ TokKind.LITERAL then visitLitGo ev decode ckind ts st
    else
      let tmp := t.spelling
      if ckind = CKind.FLOATING_LITERAL then
        let tmp2 := if strEndsWith tmp "f" then pyStrip tmp 'f' else tmp
        let _ := ev tmp2
        st
      else if ckind = CKind.STRING_LITERAL ∨ strContains tmp "\"" = true
          ∨ strContains tmp "\x27" = true then
        let st2 :=
          if strStartsWith tmp "\"" = true ∧ strEndsWith tmp "\"" = true then
            let d := decode (pyStrip tmp '"')
            { constants := insertDedup st.constants d,
              externals := insertDedup st.externals d }
          else
            { st with constants := insertDedup st.constants tmp }
        visitLitGo ev decode ckind ts st2
      else
        let _ := ev tmp
        st

/-- One call of the literal rule on a literal node of kind `ckind` with token
stream `tokens`. -/
def visit_LITERAL (ev : String → Option Int) (decode : String → String)
    (ckind : CKind) (tokens : List Tok) (st : VisState) : VisState :=
  visitLitGo ev decode ckind tokens st

/-- Claim C10: on a literal node that is not a string literal and whose
tokens contain no quote character, the literal rule changes neither the
constant set nor the external set — in particular the result of the
best-effort arithmetic evaluation (`ev`, which may succeed) is discarded. -/
theorem c10_literal_frame (ev : String → Option Int) (decode : String → String)
    (ckind : CKind) (tokens : List Tok) (st : VisState)
    (hq : tokens.all
      (fun t => !strContains t.spelling "\"" && !strContains t.spelling "\x27") = true)
    (hk : ckind ≠ CKind.STRING_LITERAL) :
    visit_LITERAL ev decode ckind tokens st = st := by
  induction tokens with
  | nil => rfl
  | cons t ts ih =>
    rw [List.all_cons] at hq
    obtain ⟨ht, hts⟩ := Bool.and_eq_true_iff.mp hq
    obtain ⟨ht1, ht2⟩ := Bool.and_eq_true_iff.mp ht
    have h1 : strContains t.spelling "\"" = false := by
      cases h : strContains t.spelling "\"" <;> simp [h] at ht1 ⊢
    have h2 : strContains t.spelling "\x27" = false := by
      cases h : strContains t.spelling "\x27" <;> simp [h] at ht2 ⊢
    by_cases hlit : t.kind = TokKind.LITERAL
    · by_cases hfl : ckind = CKind.FLOATING_LITERAL
      · simp [visit_LITERAL, visitLitGo, hlit, hfl]
      · have hguard : ¬(ckind = CKind.STRING_LITERAL
            ∨ strContains t.spelling "\"" = true
            ∨ strContains t.spelling "\x27" = true) := by
          intro hor
          rcases hor with h | h | h
          · exact hk h
          · rw [h1] at h; cases h
          · rw [h2] at h; cases h
        simp [visit_LITERAL, visitLitGo, hlit, hfl, hguard]
    · have := ih hts
      simp only [visit_LITERAL, visitLitGo] at this ⊢
      simp [hlit, this]

/-- Witness for C10: an integer literal whose evaluation succeeds still
leaves both sets unchanged. -/
theorem c10_literal_frame_witness :
    visit_LITERAL (fun _ => some 42) (fun s => s) CKind.INTEGER_LITERAL
      [lit "42"] ⟨[], []⟩ = ⟨[], []⟩ :=
  c10_literal_frame _ _ _ _ _ (by decide) (by decide)

theorem mem_insertDedup_self (l : List String) (x : String) : x ∈ insertDedup l x := by
  simp only [insertDedup]
  split
  · assumption
  · simp

theorem insertDedup_of_mem (l : List String) (x : String) (h : x ∈ l) :
    insertDedup l x = l := by
  simp [insertDedup, h]

theorem visitLitGo_stringStable (ev : String → Option Int) (decode : String → String)
    (ckind : CKind) (tok : String)
    (hk : ckind ≠ CKind.FLOATING_LITERAL)
    (hs : strStartsWith tok "\"" = true) (he : strEndsWith tok "\"" = true) :
    ∀ (m : Nat) (st : VisState),
      decode (pyStrip tok '"') ∈ st.constants →
      decode (pyStrip tok '"') ∈ st.externals →
      visitLitGo ev decode ckind (List.replicate m (lit tok)) st = st := by
  have hcont : strContains tok "\"" = true := by
    have h := of_decide_eq_true hs
    exact decide_eq_true h.isInfix
  intro m
  induction m with
  | zero => intro st _ _; rfl
  | succ m ih =>
    intro st h1 h2
    rw [List.replicate_succ]
    have hst2 : VisState.mk (insertDedup st.constants (decode (pyStrip tok '"')))
        (insertDedup st.externals (decode (pyStrip tok '"'))) = st := by
      rw [insertDedup_of_mem _ _ h1, insertDedup_of_mem _ _ h2]
    simp [visitLitGo, lit, hk, hcont, hs, he, hst2]
    exact ih st h1 h2

/-- Claim C7: a string-literal token of the form `"..."` has its decoded text
added to both the external-reference set and the constant set, and no matter
how many times the same token is re-scanned each set holds it exactly once. -/
theorem c7_string_literal_once (ev : String → Option Int) (decode : String → String)
    (ckind : CKind) (tok : String) (st : VisState) (n : Nat)
    (hk : ckind ≠ CKind.FLOATING_LITERAL)
    (hs : strStartsWith tok "\"" = true) (he : strEndsWith tok "\"" = true)
    (hn : 1 ≤ n)
    (hc : decode (pyStrip tok '"') ∉ st.constants)
    (hx : decode (pyStrip tok '"') ∉ st.externals) :
    ((visit_LITERAL ev decode ckind (List.replicate n (lit tok)) st).constants.count
        (decode (pyStrip tok '"')) = 1)
    ∧ ((visit_LITERAL ev decode ckind (List.replicate n (lit tok)) st).externals.count
        (decode (pyStrip tok '"')) = 1) := by
  have hcont : strContains tok "\"" = true := by
    have h := of_decide_eq_true hs
    exact decide_eq_true h.isInfix
  rcases n with _ | m
  · omega
  · have hd := rfl (a := decode (pyStrip tok '"'))
    have hic : insertDedup st.constants (decode (pyStrip tok '"')) =
        st.constants ++ [decode (pyStrip tok '"')] := by
      simp [insertDedup, hc]
    have hix : insertDedup st.externals (decode (pyStrip tok '"')) =
        st.externals ++ [decode (pyStrip tok '"')] := by
      simp [insertDedup, hx]
    have hstep : visit_LITERAL ev decode ckind
          (List.replicate (m + 1) (lit tok)) st =
        visitLitGo ev decode ckind (List.replicate m (lit tok))
          (VisState.mk (insertDedup st.constants (decode (pyStrip tok '"')))
            (insertDedup st.externals (decode (pyStrip tok '"')))) := by
      rw [List.replicate_succ]
      simp [visit_LITERAL, visitLitGo, lit, hk, hcont, hs, he]
    rw [hstep, visitLitGo_stringStable ev decode ckind tok hk hs he m _
      (mem_insertDedup_self _ _) (mem_insertDedup_self _ _)]
    constructor
    · rw [hic, List.count_append, List.count_eq_zero.mpr hc]
      simp
    · rw [hix, List.count_append, List.count_eq_zero.mpr hx]
      simp

/-- Witness for C7: the literal `"abc"` scanned three times ends up exactly
once in each set. -/
theorem c7_string_literal_once_witness :
    ((visit_LITERAL (fun _ => none) (fun s => s) CKind.STRING_LITERAL
        (List.replicate 3 (lit "\"abc\"")) ⟨[], []⟩).constants.count "abc" = 1)
    ∧ ((visit_LITERAL (fun _ => none) (fun s => s) CKind.STRING_LITERAL
        (List.replicate 3 (lit "\"abc\"")) ⟨[], []⟩).externals.count "abc" = 1) :=
  c7_string_literal_once (fun _ => none) (fun s => s) CKind.STRING_LITERAL
    "\"abc\"" ⟨[], []⟩ 3 (by decide) (by decide) (by decide) (by decide)
    (by decide) (by decide)

/-- A clang cursor as the exporter's flag helpers consume it: its kind and
its token spellings. -/
structure Cursor where
  kind : CKind
  tokens : List String
deriving DecidableEq

/-- `INLINE_NAMES` (clang_exporter.py line 35). -/
def INLINE_NAMES : List String :=
  ["inline", "__inline", "__inline__", "__forceinline", "always_inline"]

/-- The token scan of `is_inline` (clang_exporter.py lines 72-78): each token
is tested for containing any marker as a substring (`tkn.find(name) > -1`);
the loop leaves after the token `{`, which is itself still tested first. -/
def inlineScan : List String → Bool
  | [] => false
  | t :: ts =>
    if INLINE_NAMES.any (fun nm => strContains t nm) then true
    else if t = "\x7b" then false
    else inlineScan ts

/-- `is_inline` (clang_exporter.py lines 68-80). -/
def is_inline (c : Cursor) : Bool :=
  if c.kind ≠ CKind.FUNCTION_DECL then false else inlineScan c.tokens

/-- `is_static` (clang_exporter.py lines 83-89). -/
def is_static (c : Cursor) : Bool :=
  if c.kind ≠ CKind.FUNCTION_DECL then false
  else
    match c.tokens with
    | [] => false
    | t :: _ => t == "static"

/-- Claim-side: the tokens the inline scan examines — everything up to and
including the first `\x7b` token. -/
def upToBrace : List String → List String
  | [] => []
  | t :: ts => if t = "\x7b" then [t] else t :: upToBrace ts

theorem inlineScan_iff (ts : List String) :
    inlineScan ts = true ↔
      ∃ t ∈ upToBrace ts, ∃ nm ∈ INLINE_NAMES, nm.toList <:+: t.toList := by
  induction ts with
  | nil => simp [inlineScan, upToBrace]
  | cons t ts ih =>
    by_cases hany : INLINE_NAMES.any (fun nm => strContains t nm) = true
    · have hex : ∃ nm ∈ INLINE_NAMES, nm.toList <:+: t.toList := by
        obtain ⟨nm, hnm, hc⟩ := List.any_eq_true.mp hany
        exact ⟨nm, hnm, of_decide_eq_true hc⟩
      constructor
      · intro _
        by_cases hb : t = "\x7b"
        · subst hb; exact ⟨"\x7b", by simp [upToBrace], hex⟩
        · exact ⟨t, by simp [upToBrace, hb], hex⟩
      · intro _
        simp [inlineScan, hany]
    · have hnone : ∀ nm ∈ INLINE_NAMES, ¬nm.toList <:+: t.toList := by
        intro nm hnm hin
        exact hany (List.any_eq_true.mpr ⟨nm, hnm, decide_eq_true hin⟩)
      by_cases hb : t = "\x7b"
      · subst hb
        constructor
        · intro h
          simp [inlineScan, hany] at h
        · intro ⟨x, hx, nm, hnm, hin⟩
          simp [upToBrace] at hx
          subst hx
          exact absurd hin (hnone nm hnm)
      · constructor
        · intro h
          simp only [inlineScan, if_neg hany, if_neg hb] at h
          obtain ⟨x, hx, hex⟩ := ih.mp h
          exact ⟨x, by simp [upToBrace, hb, hx], hex⟩
        · intro ⟨x, hx, nm, hnm, hin⟩
          simp only [upToBrace, if_neg hb, List.mem_cons] at hx
          rcases hx with hx | hx
          · subst hx
            exact absurd hin (hnone nm hnm)
          · simp only [inlineScan, if_neg hany, if_neg hb]
            exact ih.mpr ⟨x, hx, nm, hnm, hin⟩

/-- Amended claim C9: the inlined flag is true exactly when the node is a
plain function declaration and some token up to the body's opening brace
CONTAINS one of the inline markers as a substring (not: equals a marker); the
static flag is true exactly when the node is a plain function declaration
whose first token is `static`; both are false for methods, constructors and
destructors (their kind is not FUNCTION_DECL). -/
theorem c9_inline_static_flags (c : Cursor) :
    (is_inline c = true ↔
      c.kind = CKind.FUNCTION_DECL ∧
        ∃ t ∈ upToBrace c.tokens, ∃ nm ∈ INLINE_NAMES, nm.toList <:+: t.toList)
    ∧ (is_static c = true ↔
      c.kind = CKind.FUNCTION_DECL ∧ c.tokens.head? = some "static") := by
  constructor
  · by_cases hk : c.kind = CKind.FUNCTION_DECL
    · simp [is_inline, hk, inlineScan_iff]
    · simp [is_inline, hk]
  · by_cases hk : c.kind = CKind.FUNCTION_DECL
    · cases h : c.tokens with
      | nil => simp [is_static, hk, h]
      | cons t ts =>
        constructor
        · intro hs
          simp [is_static, hk, h] at hs
          simp [hk, h, hs]
        · intro ⟨_, hh⟩
          simp at hh
          simp [is_static, hk, h, hh]
    · simp [is_static, hk]

/-- Counterexample to claim C9 as stated: a function whose name token merely
contains `inline` as a substring is flagged inlined although no token equals
an inline marker keyword. -/
theorem c9_inline_counterexample :
    is_inline ⟨CKind.FUNCTION_DECL, ["int", "inlined_copy", "(", ")", "\x7b", "\x7d"]⟩ = true
    ∧ (["int", "inlined_copy", "(", ")", "\x7b", "\x7d"].all
        (fun t => !(INLINE_NAMES.contains t))) = true := by
  decide

/-- The per-line terminator cleanup of `strip_macros`:
`line.strip("\r").strip("\n")`. -/
def cleanLine (l : String) : String := pyStrip (pyStrip l '\r') '\n'

/-- The trimming used by `strip_macros` before testing for a leading `#`:
`line.strip(" ").strip("\t").strip(" ")`. -/
def tripleStrip (l : String) : String :=
  pyStrip (pyStrip (pyStrip l ' ') '\t') ' '

/-- One line of `CClangExporter.strip_macros` (clang_exporter.py
lines 409-414): a line that does not contain `#include` anywhere and whose
triple-stripped text starts with `#` is replaced by a comment. -/
def stripMacrosLine (l : String) : String :=
  let c := cleanLine l
  if strContains c "#include" = false ∧ strStartsWith (tripleStrip c) "#" = true
  then "// stripped: " ++ c else c

/-- The rewritten line list of `strip_macros`. -/
def strip_macros_lines (lines : List String) : List String :=
  lines.map stripMacrosLine

/-- `CClangExporter.strip_macros`: the rewritten in-memory buffer. -/
def strip_macros (lines : List String) : String :=
  String.intercalate "\n" (strip_macros_lines lines)

/-- The retry trigger of `export_one` (clang_exporter.py lines 667-680): at
least one error or fatal diagnostic, and a zero count of top-level elements
whose location file is absent or is the target file itself. -/
def shouldRetry (errors fatals : Nat) (els : List (Option String))
    (filename : String) : Bool :=
  (0 < fatals || 0 < errors) &&
    (els.countP (fun f => f == none || f == some filename)) == 0

/-- Whitespace trimming in the claim's own sense: remove every leading and
trailing space or tab. -/
def wsTrim (s : String) : String :=
  String.mk (((s.toList.dropWhile (fun c => c == ' ' || c == '\t')).reverse.dropWhile
    (fun c => c == ' ' || c == '\t')).reverse)

/-- Counterexample to claim C4 as stated: two lines that are preprocessor
directives other than `#include` in the claim's sense (their trimmed text
starts with `#` and does not start with `#include`), yet `strip_macros`
leaves both intact: the first because the code tests for the substring
`#include` anywhere in the line, the second because the code's
space-tab-space strip sequence does not remove the mixed whitespace prefix. -/
theorem c4_strip_counterexample :
    stripMacrosLine "#if FOO // #include" = "#if FOO // #include"
    ∧ stripMacrosLine " \t \t #define X" = " \t \t #define X"
    ∧ strStartsWith (wsTrim "#if FOO // #include") "#" = true
    ∧ strStartsWith (wsTrim "#if FOO // #include") "#include" = false
    ∧ strStartsWith (wsTrim " \t \t #define X") "#" = true
    ∧ strStartsWith (wsTrim " \t \t #define X") "#include" = false := by
  decide

/-- Amended claim C4: the macro-stripping re-parse is triggered exactly when
the first parse produced at least one error or fatal diagnostic and no
top-level declaration whose location is unknown or lies in the target file;
the rewritten buffer keeps one line per input line, and a line is commented
out if and only if it does not contain the substring `#include` anywhere and
its text, after stripping spaces, then tabs, then spaces from both ends,
starts with `#`; every other line is kept verbatim (line terminators
removed); there is no second retry (`strip_macros` and the trigger are run
once, see `shouldRetry`). -/
theorem c4_strip_amended :
    (∀ (errors fatals : Nat) (els : List (Option String)) (fn : String),
      shouldRetry errors fatals els fn = true ↔
        ((0 < errors ∨ 0 < fatals) ∧ ∀ x ∈ els, x ≠ none ∧ x ≠ some fn))
    ∧ (∀ lines : List String, (strip_macros_lines lines).length = lines.length)
    ∧ (∀ l : String,
        (stripMacrosLine l = "// stripped: " ++ cleanLine l
          ∨ stripMacrosLine l = cleanLine l)
        ∧ (stripMacrosLine l = "// stripped: " ++ cleanLine l ↔
            (¬ "#include".toList <:+: (cleanLine l).toList
              ∧ "#".toList <+: (tripleStrip (cleanLine l)).toList))) := by
  refine ⟨?_, ?_, ?_⟩
  · intro errors fatals els fn
    simp [shouldRetry, List.countP_eq_zero]
    tauto
  · intro lines
    simp [strip_macros_lines]
  · intro l
    have hlen : cleanLine l ≠ "// stripped: " ++ cleanLine l := by
      intro heq
      have h2 := congrArg String.length heq
      rw [String.length_append] at h2
      have h3 : ("// stripped: " : String).length = 13 := by decide
      omega
    by_cases h : strContains (cleanLine l) "#include" = false
        ∧ strStartsWith (tripleStrip (cleanLine l)) "#" = true
    · obtain ⟨ha, hb⟩ := h
      have ha2 : ¬ "#include".toList <:+: (cleanLine l).toList := by
        simpa [strContains] using ha
      have hb2 : "#".toList <+: (tripleStrip (cleanLine l)).toList := by
        simpa [strStartsWith] using hb
      constructor
      · left
        simp [stripMacrosLine, ha, hb]
      · constructor
        · intro _
          exact ⟨ha2, hb2⟩
        · intro _
          simp [stripMacrosLine, ha, hb]
    · have hout : stripMacrosLine l = cleanLine l := by
        simp only [stripMacrosLine]
        rw [if_neg h]
      constructor
      · right
        exact hout
      · constructor
        · intro heq
          rw [hout] at heq
          exact absurd heq hlen
        · intro ⟨ha2, hb2⟩
          have ha : strContains (cleanLine l) "#include" = false := by
            simpa [strContains] using ha2
          have hb : strStartsWith (tripleStrip (cleanLine l)) "#" = true := by
            simpa [strStartsWith] using hb2
          exact absurd ⟨ha, hb⟩ h

/-- The dynamic type of the exporter's `global_variables` attribute: it is
initialised to a set (`CClangExporter.__init__`), but the VAR_DECL branch of
`export_one` (line 744) assigns a bare string to it. -/
inductive GV where
  | set (s : List String)
  | str (s : String)
deriving DecidableEq

/-- Python's `name in global_variables`: set membership when it holds a set,
substring containment when it holds a string. -/
def gvContains (g : GV) (x : String) : Bool :=
  match g with
  | .set s => s.contains x
  | .str s => strContains s x

/-- Python exceptions escaping `export_one`. -/
inductive Err where
  | fileMissing (fn : String)
  | noLocation
deriving DecidableEq

/-- The filesystem at read time: a file name maps to its lines (with
terminators still attached, as `readlines` returns them), or to nothing when
the file is missing or unreadable. -/
def FileSys : Type := String → Option (List String)

/-- A `kind`/`name`/`source` triple appended to `src_definitions`. -/
abbrev TypeDef := String × String × String

/-- One top-level AST node of a parsed translation unit, as `export_one`
consumes it: its location file (absent for some synthesised nodes), kind,
spelling, token spellings, 1-based extent lines, and — standing for the
result of the `parse_struct`/`parse_union`/`parse_enum`/`parse_typedef` text
synthesis, whose internals are irrelevant to the emission-multiplicity
properties proved here — the name/source pair it reconstructs to (`none` =
not reconstructible). -/
structure Element where
  file : Option String
  kind : CKind
  spelling : String
  tokens : List String
  startLine : Nat
  endLine : Nat
  parsed : Option (String × String)
deriving DecidableEq

/-- One translation unit of an export run: the primary file name, the parsed
top-level elements, and the named groups returned by the external macro
extractor for this file. -/
structure SrcFile where
  name : String
  elements : List Element
  macroEnums : List (String × String)
deriving DecidableEq

/-- The exporter state threaded across files: `header_files`,
`src_definitions`, `global_variables`, `source_cache` and the functions table
of the store (each row: assigned sequential identifier and function name). -/
structure ExpSt where
  header_files : List String
  src_definitions : List TypeDef
  global_variables : GV
  source_cache : List (String × List String)
  db : List (Nat × String)
deriving DecidableEq

/-- The exporter state at the start of a run (`CClangExporter.__init__`
plus an initially empty store). -/
def initSt : ExpSt := ⟨[], [], GV.set [], [], []⟩

/-- The per-file loop state: the exporter state, the per-file `dones` set,
and a ghost trace of the (header file, TypeDefinition) pairs emitted by the
header-reconstruction branch during this file. -/
structure FSt where
  st : ExpSt
  dones : List String
  ems : List (String × TypeDef)
deriving DecidableEq

/-- `source_cache` lookup (`filename in self.source_cache`). -/
def cacheGet : List (String × List String) → String → Option (List String)
  | [], _ => none
  | (k, v) :: rest, fn => if k = fn then some v else cacheGet rest fn

/-- `CClangExporter.get_function_source` (clang_exporter.py lines 383-393):
lazily caches the file's lines and joins the 1-based inclusive line slice
`lines[start_line-1:end_line]`; opening a missing file raises, and an element
with no location raises when its file name is dereferenced. -/
def get_function_source (fs : FileSys) (cache : List (String × List String))
    (e : Element) : Except Err (String × List (String × List String)) :=
  match e.file with
  | none => .error .noLocation
  | some fn =>
    match cacheGet cache fn with
    | some lines =>
      .ok (String.join ((lines.drop (e.startLine - 1)).take
        (e.endLine - (e.startLine - 1))), cache)
    | none =>
      match fs fn with
      | some lines =>
        .ok (String.join ((lines.drop (e.startLine - 1)).take
          (e.endLine - (e.startLine - 1))), cache ++ [(fn, lines)])
      | none => .error (.fileMissing fn)

/-- `SCAN_ELEMENTS` (clang_exporter.py lines 37-39). -/
def SCAN_ELEMENTS : List CKind :=
  [CKind.FUNCTION_DECL, CKind.FUNCTION_TEMPLATE, CKind.CXX_METHOD,
   CKind.CONSTRUCTOR, CKind.DESTRUCTOR, CKind.OBJC_INSTANCE_METHOD_DECL]

/-- The kind dispatch of the header-reconstruction branch of `export_one`
(lines 711-737): what it appends to `src_definitions` for one element
(`parse_enum` always returns a pair, so a well-formed enum element carries
`parsed = some _`; `getD` covers the vacuous case). -/
def reconDef (e : Element) : Option TypeDef :=
  match e.kind, e.parsed with
  | CKind.STRUCT_DECL, some (n, s) => some ("struct", n, s)
  | CKind.STRUCT_DECL, none => none
  | CKind.UNION_DECL, some (n, s) => some ("union", n, s)
  | CKind.UNION_DECL, none => none
  | CKind.ENUM_DECL, p => some ("enum", (p.getD (e.spelling, "")).1, (p.getD (e.spelling, "")).2)
  | CKind.TYPEDEF_DECL, some (n, s) => some ("typedef", n, s)
  | CKind.TYPEDEF_DECL, none => none
  | _, _ => none

/-- The `dones`/type-reconstruction block of the element loop (lines
707-737), reached when the element's file is known, inside the working
directory, and not yet in `header_files`. -/
def headerPart (a : FSt) (fn : String) (e : Element) : FSt :=
  if fn ∈ a.st.header_files then a
  else
    let a0 : FSt := { a with dones := insertDedup a.dones fn }
    match reconDef e with
    | some td =>
      { a0 with
          st := { a0.st with src_definitions := a0.st.src_definitions ++ [td] },
          ems := a0.ems ++ [(fn, td)] }
    | none => a0

/-- The VAR_DECL branch of the element loop (lines 742-744). Faithful to the
source bug: `self.global_variables = name` overwrites the attribute with the
bare name string instead of adding the name to the set. -/
def varPart (a : FSt) (e : Element) : FSt :=
  if e.kind = CKind.VAR_DECL then
    { a with st := { a.st with global_variables := GV.str e.spelling } }
  else a

/-- The VAR_DECL / function-scan tail of the element loop (lines 742-783),
reached when the element's location is the primary file or absent: a function
whose first token is `extern` is skipped; a function whose source slice is
empty produces no row; otherwise a row is inserted with identifier
`count(ea) + 1`. -/
def stepScan (fs : FileSys) (a : FSt) (e : Element) : Except Err FSt :=
  if e.kind ∈ SCAN_ELEMENTS then
    if e.tokens.head? = some "extern" then .ok (varPart a e)
    else
      match get_function_source fs (varPart a e).st.source_cache e with
      | .error err => .error err
      | .ok (src, cache) =>
        if src = "" then
          .ok { (varPart a e) with st :=
            { (varPart a e).st with source_cache := cache } }
        else
          .ok { (varPart a e) with st :=
            { (varPart a e).st with
                source_cache := cache,
                db := (varPart a e).st.db ++
                  [((varPart a e).st.db.length + 1, e.spelling)] } }
  else .ok (varPart a e)

/-- One iteration of the element loop of `CClangExporter.export_one` (lines
700-783): elements from outside the working directory are skipped; elements
from a file other than the primary one only go through the header block. -/
def stepElement (fs : FileSys) (cwdOk : String → Bool) (filename : String)
    (a : FSt) (e : Element) : Except Err FSt :=
  match e.file with
  | some fn =>
    if cwdOk fn = false then .ok a
    else
      if fn ≠ filename then .ok (headerPart a fn e)
      else stepScan fs (headerPart a fn e) e
  | none => stepScan fs a e

/-- The element loop of `export_one`, propagating a raised exception. -/
def runElems (fs : FileSys) (cwdOk : String → Bool) (filename : String) :
    FSt → List Element → Except Err FSt
  | a, [] => .ok a
  | a, e :: es =>
    match stepElement fs cwdOk filename a e with
    | .error err => .error err
    | .ok a2 => runElems fs cwdOk filename a2 es

/-- The macro-extractor groups persisted at the start of the per-file
transaction (lines 693-697): each non-empty-named group is appended to
`src_definitions` as an enum. -/
def macroDefs (st : ExpSt) (ms : List (String × String)) : ExpSt :=
  { st with src_definitions := st.src_definitions ++
      ((ms.filter (fun m => m.1 ≠ "")).map (fun m => ("enum", m.1, m.2))) }

/-- `CClangExporter.export_one` for one file (its store section): macro
enums, then the element loop, then `self.header_files += list(dones)`
(line 785). Returns the new exporter state and the ghost per-file emission
trace. -/
def processFile (fs : FileSys) (cwdOk : String → Bool) (st : ExpSt)
    (f : SrcFile) : Except Err (ExpSt × List (String × TypeDef)) :=
  match runElems fs cwdOk f.name ⟨macroDefs st f.macroEnums, [], []⟩ f.elements with
  | .error err => .error err
  | .ok a => .ok ({ a.st with header_files := a.st.header_files ++ a.dones }, a.ems)

/-- A whole export run over the given files in order, collecting the
per-file emission traces. -/
def runFilesE (fs : FileSys) (cwdOk : String → Bool) :
    ExpSt → List SrcFile → Except Err (ExpSt × List (List (String × TypeDef)))
  | st, [] => .ok (st, [])
  | st, f :: rest =>
    match processFile fs cwdOk st f with
    | .error err => .error err
    | .ok (st2, ems) =>
      match runFilesE fs cwdOk st2 rest with
      | .error err => .error err
      | .ok (st3, emss) => .ok (st3, ems :: emss)

theorem mem_insertDedup_of_mem (l : List String) (x y : String) (h : x ∈ l) :
    x ∈ insertDedup l y := by
  unfold insertDedup
  split
  · exact h
  · exact List.mem_append_left _ h

theorem varPart_fields (a : FSt) (e : Element) :
    (varPart a e).st.db = a.st.db
    ∧ (varPart a e).st.header_files = a.st.header_files
    ∧ (varPart a e).dones = a.dones
    ∧ (varPart a e).ems = a.ems
    ∧ (varPart a e).st.source_cache = a.st.source_cache := by
  unfold varPart
  split <;> simp

theorem headerPart_fields (a : FSt) (fn : String) (e : Element) :
    (headerPart a fn e).st.db = a.st.db
    ∧ (headerPart a fn e).st.header_files = a.st.header_files
    ∧ (headerPart a fn e).st.source_cache = a.st.source_cache
    ∧ (∀ x ∈ a.dones, x ∈ (headerPart a fn e).dones)
    ∧ (∀ em ∈ (headerPart a fn e).ems,
        em ∈ a.ems ∨ (em.1 ∈ (headerPart a fn e).dones ∧ em.1 ∉ a.st.header_files)) := by
  unfold headerPart
  by_cases hin : fn ∈ a.st.header_files
  · simp only [if_pos hin]
    exact ⟨by trivial, by trivial, by trivial, fun x hx => hx, fun em hem => Or.inl hem⟩
  · simp only [if_neg hin]
    cases hr : reconDef e with
    | none =>
      exact ⟨by trivial, by trivial, by trivial,
        fun x hx => mem_insertDedup_of_mem _ _ _ hx,
        fun em hem => Or.inl hem⟩
    | some td =>
      refine ⟨by trivial, by trivial, by trivial,
        fun x hx => mem_insertDedup_of_mem _ _ _ hx, ?_⟩
      intro em hem
      rcases List.mem_append.mp hem with hl | hr2
      · exact Or.inl hl
      · have : em = (fn, td) := by simpa using hr2
        subst this
        exact Or.inr ⟨mem_insertDedup_self _ _, hin⟩

/-- The functions table holds sequential identifiers: row N (1-based) carries
identifier N. -/
def seqIds (db : List (Nat × String)) : Prop :=
  db.map Prod.fst = List.range' 1 db.length

theorem seqIds_append (db : List (Nat × String)) (s : String) (h : seqIds db) :
    seqIds (db ++ [(db.length + 1, s)]) := by
  unfold seqIds at h ⊢
  rw [List.map_append, h, List.length_append]
  simp [List.range'_concat, Nat.add_comm]

theorem stepScan_ok (fs : FileSys) (a : FSt) (e : Element) (a2 : FSt)
    (h : stepScan fs a e = Except.ok a2) :
    a2.st.header_files = a.st.header_files
    ∧ a2.dones = a.dones
    ∧ a2.ems = a.ems
    ∧ (a2.st.db = a.st.db ∨ a2.st.db = a.st.db ++ [(a.st.db.length + 1, e.spelling)]) := by
  obtain ⟨hdb, hhf, hdo, hems, hcache⟩ := varPart_fields a e
  unfold stepScan at h
  split at h
  · split at h
    · cases h
      exact ⟨hhf, hdo, hems, Or.inl hdb⟩
    · split at h
      · cases h
      · split at h
        · cases h
          exact ⟨hhf, hdo, hems, Or.inl hdb⟩
        · cases h
          refine ⟨hhf, hdo, hems, Or.inr ?_⟩
          show (varPart a e).st.db ++ [((varPart a e).st.db.length + 1, e.spelling)] =
            a.st.db ++ [(a.st.db.length + 1, e.spelling)]
          rw [hdb]
  · cases h
    exact ⟨hhf, hdo, hems, Or.inl hdb⟩

theorem stepElement_ok (fs : FileSys) (cwdOk : String → Bool) (filename : String)
    (a : FSt) (e : Element) (a2 : FSt)
    (h : stepElement fs cwdOk filename a e = Except.ok a2) :
    a2.st.header_files = a.st.header_files
    ∧ (∀ x ∈ a.dones, x ∈ a2.dones)
    ∧ (∀ em ∈ a2.ems, em ∈ a.ems ∨ (em.1 ∈ a2.dones ∧ em.1 ∉ a.st.header_files))
    ∧ (a2.st.db = a.st.db ∨ a2.st.db = a.st.db ++ [(a.st.db.length + 1, e.spelling)]) := by
  unfold stepElement at h
  split at h
  · rename_i fn hfile
    split at h
    · cases h
      exact ⟨rfl, fun x hx => hx, fun em hem => Or.inl hem, Or.inl rfl⟩
    · split at h
      · cases h
        obtain ⟨hdb, hhf, hcache, hdon, hems⟩ := headerPart_fields a fn e
        exact ⟨hhf, hdon, hems, Or.inl hdb⟩
      · obtain ⟨hdb, hhf, hcache, hdon, hems⟩ := headerPart_fields a fn e
        obtain ⟨shf, sdo, sems, sdb⟩ := stepScan_ok fs (headerPart a fn e) e a2 h
        refine ⟨shf.trans hhf, ?_, ?_, ?_⟩
        · intro x hx
          rw [sdo]
          exact hdon x hx
        · intro em hem
          rw [sems] at hem
          rcases hems em hem with h1 | ⟨h2, h3⟩
          · exact Or.inl h1
          · right
            refine ⟨?_, h3⟩
            rw [sdo]
            exact h2
        · rcases sdb with h1 | h1
          · left
            rw [h1, hdb]
          · right
            rw [h1, hdb]
  · obtain ⟨shf, sdo, sems, sdb⟩ := stepScan_ok fs a e a2 h
    refine ⟨shf, ?_, ?_, sdb⟩
    · intro x hx
      rw [sdo]
      exact hx
    · intro em hem
      rw [sems] at hem
      exact Or.inl hem

theorem runElems_ok (fs : FileSys) (cwdOk : String → Bool) (filename : String)
    (es : List Element) :
    ∀ (a a2 : FSt), runElems fs cwdOk filename a es = Except.ok a2 →
      a2.st.header_files = a.st.header_files
      ∧ (∀ x ∈ a.dones, x ∈ a2.dones)
      ∧ (∀ em ∈ a2.ems, em ∈ a.ems ∨ (em.1 ∈ a2.dones ∧ em.1 ∉ a.st.header_files))
      ∧ (seqIds a.st.db → seqIds a2.st.db) := by
  induction es with
  | nil =>
    intro a a2 h
    cases h
    exact ⟨rfl, fun x hx => hx, fun em hem => Or.inl hem, fun s => s⟩
  | cons e es ih =>
    intro a a2 h
    unfold runElems at h
    split at h
    · cases h
    · rename_i a1 heq
      obtain ⟨ehf, edo, eems, edb⟩ := stepElement_ok fs cwdOk filename a e a1 heq
      obtain ⟨rhf, rdo, rems, rdb⟩ := ih a1 a2 h
      refine ⟨rhf.trans ehf, ?_, ?_, ?_⟩
      · intro x hx
        exact rdo x (edo x hx)
      · intro em hem
        rcases rems em hem with h1 | ⟨h2, h3⟩
        · rcases eems em h1 with h4 | ⟨h5, h6⟩
          · exact Or.inl h4
          · exact Or.inr ⟨rdo _ h5, h6⟩
        · right
          refine ⟨h2, ?_⟩
          rw [← ehf]
          exact h3
      · intro hs
        apply rdb
        rcases edb with h1 | h1
        · rw [h1]
          exact hs
        · rw [h1]
          exact seqIds_append _ _ hs

theorem processFile_ok (fs : FileSys) (cwdOk : String → Bool) (st : ExpSt)
    (f : SrcFile) (st2 : ExpSt) (ems : List (String × TypeDef))
    (h : processFile fs cwdOk st f = Except.ok (st2, ems)) :
    (∀ x ∈ st.header_files, x ∈ st2.header_files)
    ∧ (∀ em ∈ ems, em.1 ∈ st2.header_files ∧ em.1 ∉ st.header_files)
    ∧ (seqIds st.db → seqIds st2.db) := by
  unfold processFile at h
  split at h
  · cases h
  · rename_i a heq
    injection h with h2
    rw [Prod.mk.injEq] at h2
    obtain ⟨h3, h4⟩ := h2
    subst h3
    subst h4
    obtain ⟨rhf, rdo, rems, rdb⟩ := runElems_ok fs cwdOk f.name f.elements
      ⟨macroDefs st f.macroEnums, [], []⟩ a heq
    refine ⟨?_, ?_, ?_⟩
    · intro x hx
      apply List.mem_append_left
      rw [rhf]
      exact hx
    · intro em hem
      rcases rems em hem with h1 | ⟨h2, h3⟩
      · exact absurd h1 (List.not_mem_nil em)
      · constructor
        · apply List.mem_append_right
          exact h2
        · exact h3
    · intro hs
      exact rdb hs

theorem runFilesE_noEmit (fs : FileSys) (cwdOk : String → Bool)
    (files : List SrcFile) :
    ∀ (st st3 : ExpSt) (emss : List (List (String × TypeDef))) (h : String),
      runFilesE fs cwdOk st files = Except.ok (st3, emss) →
      h ∈ st.header_files →
      ∀ (i : Nat) (emi : List (String × TypeDef)), emss[i]? = some emi →
        ∀ td : TypeDef, (h, td) ∉ emi := by
  induction files with
  | nil =>
    intro st st3 emss h hr hmem i emi hg td
    unfold runFilesE at hr
    injection hr with h2
    rw [Prod.mk.injEq] at h2
    obtain ⟨_, h4⟩ := h2
    subst h4
    simp at hg
  | cons f rest ih =>
    intro st st3 emss h hr hmem i emi hg td
    unfold runFilesE at hr
    split at hr
    · cases hr
    · rename_i st1 ems0 heq
      split at hr
      · cases hr
      · rename_i st3x emssx heq2
        injection hr with h2
        rw [Prod.mk.injEq] at h2
        obtain ⟨h3, h4⟩ := h2
        subst h3
        subst h4
        obtain ⟨phf, pems, _⟩ := processFile_ok fs cwdOk st f st1 ems0 heq
        cases i with
        | zero =>
          simp at hg
          subst hg
          intro hc
          exact (pems _ hc).2 hmem
        | succ i2 =>
          simp at hg
          exact ih st1 _ emssx h heq2 (phf h hmem) i2 emi hg td

theorem runFilesE_seqIds (fs : FileSys) (cwdOk : String → Bool)
    (files : List SrcFile) :
    ∀ (st st3 : ExpSt) (emss : List (List (String × TypeDef))),
      runFilesE fs cwdOk st files = Except.ok (st3, emss) →
      seqIds st.db → seqIds st3.db := by
  induction files with
  | nil =>
    intro st st3 emss hr hst
    unfold runFilesE at hr
    injection hr with h2
    rw [Prod.mk.injEq] at h2
    obtain ⟨h3, _⟩ := h2
    subst h3
    exact hst
  | cons f rest ih =>
    intro st st3 emss hr hst
    unfold runFilesE at hr
    split at hr
    · cases hr
    · rename_i st1 ems0 heq
      split at hr
      · cases hr
      · rename_i st3x emssx heq2
        injection hr with h2
        rw [Prod.mk.injEq] at h2
        obtain ⟨h3, h4⟩ := h2
        subst h3
        exact ih st1 _ emssx heq2 ((processFile_ok fs cwdOk st f st1 ems0 heq).2.2 hst)

theorem runFilesE_dedup_aux (fs : FileSys) (cwdOk : String → Bool)
    (files : List SrcFile) :
    ∀ (st st3 : ExpSt) (emss : List (List (String × TypeDef))) (i j : Nat)
      (emi emj : List (String × TypeDef)) (h : String) (td td2 : TypeDef),
      runFilesE fs cwdOk st files = Except.ok (st3, emss) → i < j →
      emss[i]? = some emi → emss[j]? = some emj →
      (h, td) ∈ emi → (h, td2) ∉ emj := by
  induction files with
  | nil =>
    intro st st3 emss i j emi emj h td td2 hrun hij hgi hgj hmem
    unfold runFilesE at hrun
    injection hrun with h2
    rw [Prod.mk.injEq] at h2
    obtain ⟨_, h4⟩ := h2
    subst h4
    simp at hgi
  | cons f rest ih =>
    intro st st3 emss i j emi emj h td td2 hrun hij hgi hgj hmem
    unfold runFilesE at hrun
    split at hrun
    · cases hrun
    · rename_i st1 ems0 heq
      split at hrun
      · cases hrun
      · rename_i st3x emssx heq2
        injection hrun with h2
        rw [Prod.mk.injEq] at h2
        obtain ⟨h3, h4⟩ := h2
        subst h3
        subst h4
        obtain ⟨phf, pems, _⟩ := processFile_ok fs cwdOk st f st1 ems0 heq
        obtain ⟨j2, rfl⟩ : ∃ j2, j = j2 + 1 := ⟨j - 1, by omega⟩
        simp only [List.getElem?_cons_succ] at hgj
        cases i with
        | zero =>
          simp at hgi
          subst hgi
          exact runFilesE_noEmit fs cwdOk rest st1 _ emssx h heq2
            ((pems _ hmem).1) j2 emj hgj td2
        | succ i2 =>
          simp only [List.getElem?_cons_succ] at hgi
          exact ih st1 _ emssx i2 j2 emi emj h td td2 heq2 (by omega) hgi hgj hmem

/-- Claim C3: within one export run, once a header's declarations have been
reconstructed while processing one translation unit, no later translation
unit that re-includes the same header emits any TypeDefinition for it — the
per-file `dones` set is folded into `header_files` after each file and every
reconstruction requires the header not to be in `header_files`. -/
theorem c3_header_dedup (fs : FileSys) (cwdOk : String → Bool)
    (files : List SrcFile) (st0 st3 : ExpSt)
    (emss : List (List (String × TypeDef))) (i j : Nat)
    (emi emj : List (String × TypeDef)) (h : String) (td td2 : TypeDef)
    (hrun : runFilesE fs cwdOk st0 files = Except.ok (st3, emss))
    (hij : i < j)
    (hgi : emss[i]? = some emi) (hgj : emss[j]? = some emj)
    (hmem : (h, td) ∈ emi) : (h, td2) ∉ emj :=
  runFilesE_dedup_aux fs cwdOk files st0 st3 emss i j emi emj h td td2
    hrun hij hgi hgj hmem

def fsNone : FileSys := fun _ => none

def cwdAll : String → Bool := fun _ => true

/-- The reconstructed TypeDefinition of `struct S` used by the witnesses. -/
def tdS : TypeDef := ("struct", "S", "struct S")

/-- A top-level struct declaration located in the header `h.h`. -/
def structElem : Element :=
  ⟨some "h.h", CKind.STRUCT_DECL, "S", [], 1, 1, some ("S", "struct S")⟩

/-- The run state after the two-file witness run. -/
def stW : ExpSt := ⟨["h.h"], [tdS], GV.set [], [], []⟩

/-- Witness for C3: two translation units both including `h.h`; the second
file's emission list is empty, so nothing for `h.h` is in it. -/
theorem c3_header_dedup_witness :
    ("h.h", tdS) ∉ ([] : List (String × TypeDef)) :=
  c3_header_dedup fsNone cwdAll
    [⟨"a.c", [structElem], []⟩, ⟨"b.c", [structElem], []⟩]
    initSt stW [[("h.h", tdS)], []] 0 1 [("h.h", tdS)] [] "h.h" tdS tdS
    rfl (by decide) rfl rfl (by simp)

/-- The property that the store's functions table ended the run with
sequential identifiers 1, 2, 3, ... in insertion order. -/
def dbIdsSequential : Except Err (ExpSt × List (List (String × TypeDef))) → Prop
  | .ok (st, _) => seqIds st.db
  | .error _ => True

/-- Claim C2: in a single-threaded export run against an initially empty
store, the identifier of every inserted function row is computed as one plus
the count of rows already present (`select count(ea)+1 from functions`), so
the Nth persisted record (in traversal order) carries identifier N. -/
theorem c2_sequential_ids (fs : FileSys) (cwdOk : String → Bool)
    (files : List SrcFile) :
    dbIdsSequential (runFilesE fs cwdOk initSt files) := by
  cases hr : runFilesE fs cwdOk initSt files with
  | error e => simp [dbIdsSequential]
  | ok p =>
    obtain ⟨st3, emss⟩ := p
    have h0 : seqIds initSt.db := by simp [seqIds, initSt, List.range']
    have h1 := runFilesE_seqIds fs cwdOk files initSt st3 emss hr h0
    simpa [dbIdsSequential] using h1

/-- A top-level variable declaration of the primary file `a.c`. -/
def varEl (n : String) : Element :=
  ⟨some "a.c", CKind.VAR_DECL, n, [], 1, 1, none⟩

/-- The GlobalVariableSet left by a run (the erased-on-error projection). -/
def gvOf : Except Err (ExpSt × List (List (String × TypeDef))) → GV
  | .ok (st, _) => st.global_variables
  | .error _ => GV.set []

/-- Claim C1 is right about the code's intent but the code is wrong: after
processing the top-level variable declarations `a` then `b` of the primary
file, the exporter's GlobalVariableSet is not a grown set containing both
names — `self.global_variables = name` (line 744) has overwritten it with the
bare string `"b"`, and the name `a` is no longer found, so the
declaration-reference rule cannot see it. -/
theorem c1_globals_overwritten :
    gvOf (runFilesE fsNone cwdAll initSt
        [⟨"a.c", [varEl "a", varEl "b"], []⟩]) = GV.str "b"
    ∧ gvContains (gvOf (runFilesE fsNone cwdAll initSt
        [⟨"a.c", [varEl "a", varEl "b"], []⟩])) "a" = false := by
  constructor
  · rfl
  · rfl

theorem stepElement_prim (fs : FileSys) (cwdOk : String → Bool)
    (filename : String) (a : FSt) (e : Element)
    (hf : e.file = some filename) (hcwd : cwdOk filename = true) :
    stepElement fs cwdOk filename a e = stepScan fs (headerPart a filename e) e := by
  unfold stepElement
  rw [hf]
  simp [hcwd]

theorem stepScan_withSource (fs : FileSys) (a : FSt) (e : Element)
    (src : String) (cache : List (String × List String))
    (hk : e.kind ∈ SCAN_ELEMENTS) (hx : e.tokens.head? ≠ some "extern")
    (hsrc : get_function_source fs (varPart a e).st.source_cache e =
      Except.ok (src, cache)) :
    stepScan fs a e =
      (if src = "" then
        Except.ok { (varPart a e) with st :=
          { (varPart a e).st with source_cache := cache } }
      else
        Except.ok { (varPart a e) with st :=
          { (varPart a e).st with
              source_cache := cache,
              db := (varPart a e).st.db ++
                [((varPart a e).st.db.length + 1, e.spelling)] } }) := by
  unfold stepScan
  rw [if_pos hk, if_neg hx, hsrc]

theorem stepScan_withError (fs : FileSys) (a : FSt) (e : Element) (err : Err)
    (hk : e.kind ∈ SCAN_ELEMENTS) (hx : e.tokens.head? ≠ some "extern")
    (hsrc : get_function_source fs (varPart a e).st.source_cache e =
      Except.error err) :
    stepScan fs a e = Except.error err := by
  unfold stepScan
  rw [if_pos hk, if_neg hx, hsrc]

theorem scan_kind_ne_var (k : CKind) (hk : k ∈ SCAN_ELEMENTS) :
    k ≠ CKind.VAR_DECL := by
  intro hv
  rw [hv] at hk
  simp [SCAN_ELEMENTS] at hk

/-- Amended claim C8: a scanned function whose source slice reads back empty
is skipped silently — no row is inserted, no error raised, and the element
loop continues; but a function whose source file cannot be opened (missing or
renamed since the parse) raises an error that aborts the per-file export
instead of being skipped. -/
theorem c8_slice_skip_amended :
    (∀ (fs : FileSys) (cwdOk : String → Bool) (filename : String) (a : FSt)
        (e : Element) (cache : List (String × List String)),
      e.file = some filename →
      cwdOk filename = true →
      e.kind ∈ SCAN_ELEMENTS →
      e.tokens.head? ≠ some "extern" →
      get_function_source fs a.st.source_cache e = Except.ok ("", cache) →
      ∃ a2 : FSt, stepElement fs cwdOk filename a e = Except.ok a2
        ∧ a2.st.db = a.st.db)
    ∧ (∀ (fs : FileSys) (cwdOk : String → Bool) (filename : String) (a : FSt)
        (e : Element) (err : Err),
      e.file = some filename →
      cwdOk filename = true →
      e.kind ∈ SCAN_ELEMENTS →
      e.tokens.head? ≠ some "extern" →
      get_function_source fs a.st.source_cache e = Except.error err →
      stepElement fs cwdOk filename a e = Except.error err) := by
  constructor
  · intro fs cwdOk filename a e cache hf hcwd hk hx hsrc
    obtain ⟨hpdb, _, hpcache, _, _⟩ := headerPart_fields a filename e
    obtain ⟨hvdb, _, _, _, hvcache⟩ := varPart_fields (headerPart a filename e) e
    have hsrc2 : get_function_source fs
        (varPart (headerPart a filename e) e).st.source_cache e =
        Except.ok ("", cache) := by
      rw [hvcache, hpcache]
      exact hsrc
    have heq : stepElement fs cwdOk filename a e =
        Except.ok { (varPart (headerPart a filename e) e) with st :=
          { (varPart (headerPart a filename e) e).st with
              source_cache := cache } } := by
      rw [stepElement_prim fs cwdOk filename a e hf hcwd,
        stepScan_withSource fs (headerPart a filename e) e "" cache hk hx hsrc2]
      simp
    refine ⟨_, heq, ?_⟩
    exact hvdb.trans hpdb
  · intro fs cwdOk filename a e err hf hcwd hk hx hsrc
    obtain ⟨_, _, hpcache, _, _⟩ := headerPart_fields a filename e
    obtain ⟨_, _, _, _, hvcache⟩ := varPart_fields (headerPart a filename e) e
    have hsrc2 : get_function_source fs
        (varPart (headerPart a filename e) e).st.source_cache e =
        Except.error err := by
      rw [hvcache, hpcache]
      exact hsrc
    rw [stepElement_prim fs cwdOk filename a e hf hcwd,
      stepScan_withError fs (headerPart a filename e) e err hk hx hsrc2]

/-- A filesystem holding only the one-line file `a.c`. -/
def fs1 : FileSys := fun fn => if fn = "a.c" then some ["int f();\n"] else none

/-- A scanned function of `a.c` whose recorded extent lies beyond the end of
the file on disk, so its source slice is empty. -/
def funcElEmpty : Element :=
  ⟨some "a.c", CKind.FUNCTION_DECL, "g", ["int"], 3, 3, none⟩

/-- A scanned function of `a.c`, read back when `a.c` is missing. -/
def funcElMissing : Element :=
  ⟨some "a.c", CKind.FUNCTION_DECL, "f", ["int"], 1, 2, none⟩

/-- The per-file loop state at the start of a run. -/
def initFSt : FSt := ⟨initSt, [], []⟩

/-- Counterexample to claim C8 as stated: when the function's source file
cannot be read (missing/renamed file), the exporter does not skip the
function silently — the raised error escapes the element loop, so the claim's
"no error is surfaced to the caller; the export continues with the remaining
functions" is false on the code. -/
theorem c8_missing_file_counterexample :
    stepElement fsNone cwdAll "a.c" initFSt funcElMissing =
      Except.error (Err.fileMissing "a.c") := rfl

/-- Witness for the amended C8: an out-of-range slice is skipped with the
store untouched, while a missing file raises. -/
theorem c8_slice_skip_amended_witness :
    (∃ a2 : FSt, stepElement fs1 cwdAll "a.c" initFSt funcElEmpty = Except.ok a2
      ∧ a2.st.db = initFSt.st.db)
    ∧ stepElement fsNone cwdAll "a.c" initFSt funcElMissing =
        Except.error (Err.fileMissing "a.c") :=
  ⟨c8_slice_skip_amended.1 fs1 cwdAll "a.c" initFSt funcElEmpty
      [("a.c", ["int f();\n"])] rfl rfl (by decide) (by decide) rfl,
   c8_slice_skip_amended.2 fsNone cwdAll "a.c" initFSt funcElMissing
      (Err.fileMissing "a.c") rfl rfl (by decide) (by decide) rfl⟩
